import Mathlib

/-!
# ThreeJS-Runner-3d: the locomotion and animation-blending loop of `public/script.js`

The script keeps its state in module-level variables (`model`, `mixer`,
`idleAction`, `runAction`, `currentAction`, `keys`, `camera`).  Here they are
the fields of one record, `World`, and every handler of the script (the two
load callbacks, the key listeners, `crossFadeTo`, `updateCamera`, `animate`)
is a function on that record.

Numbers are exact rationals: JavaScript doubles are replaced by `ℚ`, so
rounding is outside the model.  The three.js calls the script makes
(`Vector3`, `Quaternion`, `AnimationAction`) are written out after the
library's documented behaviour; the trigonometric functions and the
per-action part of `AnimationMixer.update` are parameters (`Host`).
-/

namespace Runner

/-! ## three.js values -/

/-- THREE.Vector3. -/
structure Vector3 where
  x : ℚ
  y : ℚ
  z : ℚ
deriving DecidableEq, Repr

/-- THREE.Quaternion. -/
structure Quaternion where
  x : ℚ
  y : ℚ
  z : ℚ
  w : ℚ
deriving DecidableEq, Repr

/-- THREE.Euler, in the default order XYZ. -/
structure Euler where
  x : ℚ
  y : ℚ
  z : ℚ
deriving DecidableEq, Repr

/-- Vector3.add. -/
def Vector3.add (a b : Vector3) : Vector3 :=
  ⟨a.x + b.x, a.y + b.y, a.z + b.z⟩

/-- Vector3.multiplyScalar. -/
def Vector3.multiplyScalar (a : Vector3) (s : ℚ) : Vector3 :=
  ⟨a.x * s, a.y * s, a.z * s⟩

/-- Vector3.lerp: each component moves by `alpha` of the remaining distance. -/
def Vector3.lerp (a v : Vector3) (alpha : ℚ) : Vector3 :=
  ⟨a.x + (v.x - a.x) * alpha, a.y + (v.y - a.y) * alpha, a.z + (v.z - a.z) * alpha⟩

/-- Vector3.applyQuaternion: `v + q.w * t + q.xyz × t` with `t = 2 * (q.xyz × v)`. -/
def Vector3.applyQuaternion (v : Vector3) (q : Quaternion) : Vector3 :=
  let tx := 2 * (q.y * v.z - q.z * v.y)
  let ty := 2 * (q.z * v.x - q.x * v.z)
  let tz := 2 * (q.x * v.y - q.y * v.x)
  ⟨v.x + q.w * tx + q.y * tz - q.z * ty,
   v.y + q.w * ty + q.z * tx - q.x * tz,
   v.z + q.w * tz + q.x * ty - q.y * tx⟩

/-- Quaternion.setFromEuler for the order XYZ. -/
def Quaternion.setFromEuler (cos sin : ℚ → ℚ) (e : Euler) : Quaternion :=
  let c1 := cos (e.x / 2)
  let c2 := cos (e.y / 2)
  let c3 := cos (e.z / 2)
  let s1 := sin (e.x / 2)
  let s2 := sin (e.y / 2)
  let s3 := sin (e.z / 2)
  ⟨s1 * c2 * c3 + c1 * s2 * s3,
   c1 * s2 * c3 - s1 * c2 * s3,
   c1 * c2 * s3 + s1 * s2 * c3,
   c1 * c2 * c3 - s1 * s2 * s3⟩

/-- The identity rotation. -/
def Quaternion.identity : Quaternion := ⟨0, 0, 0, 1⟩

/-- The part of THREE.Object3D the script reads and writes.  `rotation` and
`quaternion` are two views of the orientation: writing a component of
`rotation` recomputes `quaternion`. -/
structure Object3D where
  position : Vector3
  rotation : Euler
  quaternion : Quaternion
  scale : Vector3
deriving DecidableEq, Repr

/-- The assignment `object.rotation.y = v`, with the change callback that
recomputes the quaternion from the Euler angles. -/
def Object3D.setRotationY (cos sin : ℚ → ℚ) (o : Object3D) (v : ℚ) : Object3D :=
  let r : Euler := { o.rotation with y := v }
  { o with rotation := r, quaternion := Quaternion.setFromEuler cos sin r }

/-- THREE.KeyframeTrack, by its name. -/
structure Track where
  name : String
deriving DecidableEq, Repr

/-- THREE.AnimationClip. -/
structure AnimationClip where
  name : String
  duration : ℚ
  tracks : List Track
deriving DecidableEq, Repr

/-- A scheduled linear ramp of a control value: `v0` at mixer time `t0`, `v1`
at mixer time `t1` (the two-point interpolant of `_scheduleFading`). -/
structure Ramp where
  t0 : ℚ
  v0 : ℚ
  t1 : ℚ
  v1 : ℚ
deriving DecidableEq, Repr

/-- THREE.AnimationAction: the playback state of one clip. -/
structure AnimationAction where
  clip : AnimationClip
  time : ℚ
  timeScale : ℚ
  weight : ℚ
  enabled : Bool
  paused : Bool
  loopCount : Int
  startTime : Option ℚ
  weightInterpolant : Option Ramp
  timeScaleInterpolant : Option Ramp
  scheduled : Bool
deriving DecidableEq, Repr

/-- What `mixer.clipAction(clip)` returns for a clip it has not seen. -/
def AnimationAction.new (clip : AnimationClip) : AnimationAction :=
  { clip := clip, time := 0, timeScale := 1, weight := 1, enabled := true,
    paused := false, loopCount := -1, startTime := none,
    weightInterpolant := none, timeScaleInterpolant := none, scheduled := false }

/-- AnimationAction.play: the mixer schedules the action. -/
def AnimationAction.play (a : AnimationAction) : AnimationAction :=
  { a with scheduled := true }

/-- AnimationAction.reset: back to time zero, enabled, not paused, with any
fade and warp dropped. -/
def AnimationAction.reset (a : AnimationAction) : AnimationAction :=
  { a with paused := false, enabled := true, time := 0, loopCount := -1,
           startTime := none, weightInterpolant := none,
           timeScaleInterpolant := none }

/-- AnimationAction.fadeIn at mixer time `now`. -/
def AnimationAction.fadeIn (now duration : ℚ) (a : AnimationAction) : AnimationAction :=
  { a with weightInterpolant := some ⟨now, 0, now + duration, 1⟩ }

/-- AnimationAction.fadeOut at mixer time `now`. -/
def AnimationAction.fadeOut (now duration : ℚ) (a : AnimationAction) : AnimationAction :=
  { a with weightInterpolant := some ⟨now, 1, now + duration, 0⟩ }

/-- Library functions that are not written out: `Math.cos`, `Math.sin` (used by
`Quaternion.setFromEuler`) and what `AnimationMixer.update` does to one
scheduled action, given the mixer time after the update and the elapsed time. -/
structure Host where
  cos : ℚ → ℚ
  sin : ℚ → ℚ
  updateAction : ℚ → ℚ → AnimationAction → AnimationAction

/-- THREE.AnimationMixer: its clock. -/
structure AnimationMixer where
  time : ℚ
deriving DecidableEq, Repr

/-- A loaded FBX asset: the root object and the animation clips it carries. -/
structure Fbx where
  object : Object3D
  animations : List AnimationClip
deriving DecidableEq, Repr

/-- The camera: its position and the point handed to the last `lookAt`
(`none` before the first call). -/
structure Camera where
  position : Vector3
  lookTarget : Option Vector3
deriving DecidableEq, Repr

/-! ## The script's variables -/

/-- The object `keys`. -/
structure Keys where
  w : Bool
  s : Bool
  a : Bool
  d : Bool
deriving DecidableEq, Repr

/-- The two action objects the script ever creates; a value of this type is a
reference to one of them. -/
inductive ActionRef where
  | idle
  | run
deriving DecidableEq, Repr

/-- The module-level variables of the script.  `idleAction` and `runAction`
hold the action objects themselves, `currentAction` is `null` or a reference
to one of the two.  `idlePending` and `runPending` say whether the load of
`Idle.fbx`, of `Running.fbx`, is under way (its callback has not fired). -/
structure World where
  camera : Camera
  model : Option Object3D
  mixer : Option AnimationMixer
  idleAction : Option AnimationAction
  runAction : Option AnimationAction
  currentAction : Option ActionRef
  keys : Keys
  idlePending : Bool
  runPending : Bool
deriving DecidableEq, Repr

def moveSpeed : ℚ := 0.1
def rotationSpeed : ℚ := 0.05
def worldBoundary : ℚ := 50

/-- The state once the module body has run: camera at (0, 2, 5), no model,
`currentAction = null`, all keys up, `Idle.fbx` requested. -/
def World.initial : World :=
  { camera := ⟨⟨0, 2, 5⟩, none⟩, model := none, mixer := none,
    idleAction := none, runAction := none, currentAction := none,
    keys := ⟨false, false, false, false⟩, idlePending := true, runPending := false }

/-- The object a reference points to. -/
def World.deref (st : World) : ActionRef → Option AnimationAction
  | .idle => st.idleAction
  | .run => st.runAction

/-- The value of the variable `idleAction` / `runAction` as an argument:
a reference when the variable is set, `undefined` otherwise. -/
def World.ref (st : World) (r : ActionRef) : Option ActionRef :=
  if (st.deref r).isSome then some r else none

/-- A method call on the object a reference points to. -/
def World.modify (st : World) (r : ActionRef) (f : AnimationAction → AnimationAction) : World :=
  match r with
  | .idle => { st with idleAction := st.idleAction.map f }
  | .run => { st with runAction := st.runAction.map f }

/-- The mixer time read by `_scheduleFading`. -/
def World.now (st : World) : ℚ :=
  match st.mixer with
  | some m => m.time
  | none => 0

/-! ## Asset load callbacks -/

/-- The success callback of `loader.load("Idle.fbx", ...)`: the asset becomes
the model, scaled and placed at the origin; a mixer is created; when the
asset carries a clip, the idle action is created, played and made current;
then `Running.fbx` is requested. -/
def onIdleLoaded (fbx : Fbx) (st : World) : World :=
  let model : Object3D :=
    { fbx.object with scale := ⟨0.01, 0.01, 0.01⟩, position := ⟨0, 0, 0⟩ }
  let st1 : World := { st with model := some model, mixer := some ⟨0⟩ }
  let st2 : World :=
    match fbx.animations with
    | idleClip :: _ =>
      { st1 with idleAction := some (AnimationAction.new idleClip).play,
                 currentAction := some .idle }
    | [] => st1
  { st2 with runPending := true }

/-- The success callback of `loader.load("Running.fbx", ...)`: when the asset
carries a clip, the run action is created from that clip without its
`.position` tracks. -/
def onRunLoaded (runFbx : Fbx) (st : World) : World :=
  match runFbx.animations with
  | runClip :: _ =>
    let filteredTracks := runClip.tracks.filter (fun track => !track.name.endsWith ".position")
    let filteredRunClip : AnimationClip := ⟨runClip.name, runClip.duration, filteredTracks⟩
    { st with runAction := some (AnimationAction.new filteredRunClip) }
  | [] => st

/-! ## Keyboard listeners -/

/-- The lookup `keys[name]`: `undefined` unless `name` is one of the four
properties of the object (a name found on `Object.prototype` holds none of
the four flags and is left out). -/
def Keys.get? (ks : Keys) (name : String) : Option Bool :=
  if name = "w" then some ks.w
  else if name = "s" then some ks.s
  else if name = "a" then some ks.a
  else if name = "d" then some ks.d
  else none

/-- The assignment `keys[name] = v` to one of the four properties. -/
def Keys.set (ks : Keys) (name : String) (v : Bool) : Keys :=
  if name = "w" then { ks with w := v }
  else if name = "s" then { ks with s := v }
  else if name = "a" then { ks with a := v }
  else if name = "d" then { ks with d := v }
  else ks

/-- The body shared by the two listeners: lower-case `event.key`, and assign
only when the property exists.  `String.toLower` and JavaScript's
`toLowerCase` give `w`, `s`, `a` or `d` for the same keys: the letter itself
and its capital. -/
def Keys.onKey (ks : Keys) (eventKey : String) (v : Bool) : Keys :=
  let key := eventKey.toLower
  if (ks.get? key).isSome then ks.set key v else ks

/-- The `keydown` listener. -/
def keydown (eventKey : String) (st : World) : World :=
  { st with keys := st.keys.onKey eventKey true }

/-- The `keyup` listener. -/
def keyup (eventKey : String) (st : World) : World :=
  { st with keys := st.keys.onKey eventKey false }

/-! ## crossFadeTo, updateCamera, animate -/

/-- The function `crossFadeTo(newAction, duration)`.  The argument is
`undefined` (`none`) or a reference to an action.  Both calls in the script
pass 0.5, so the default 0.4 of `duration` is never taken. -/
def crossFadeTo (newAction : Option ActionRef) (duration : ℚ) (st : World) : World :=
  match newAction, st.currentAction with
  | some n, some c =>
    if n = c then st
    else
      let now := st.now
      -- newAction.reset()
      let st1 := st.modify n AnimationAction.reset
      -- newAction.crossFadeFrom(currentAction, duration, false)
      let st2 := st1.modify c (AnimationAction.fadeOut now duration)
      let st3 := st2.modify n (AnimationAction.fadeIn now duration)
      -- newAction.play()
      let st4 := st3.modify n AnimationAction.play
      { st4 with currentAction := some n }
  | _, _ => st

/-- The function `updateCamera()`. -/
def updateCamera (st : World) : World :=
  match st.model with
  | none => st
  | some model =>
    let offset := (Vector3.mk 0 2 (-4)).applyQuaternion model.quaternion
    let desiredPosition := model.position.add offset
    let target : Vector3 := { model.position with y := model.position.y + 1 }
    { st with camera := ⟨st.camera.position.lerp desiredPosition 0.1, some target⟩ }

/-- The call `mixer.update(delta)`: the mixer clock advances and every
scheduled action is updated. -/
def mixerUpdate (H : Host) (delta : ℚ) (st : World) : World :=
  match st.mixer with
  | none => st
  | some m =>
    let time := m.time + delta
    let upd := fun (a : AnimationAction) => if a.scheduled then H.updateAction time delta a else a
    { st with mixer := some ⟨time⟩,
              idleAction := st.idleAction.map upd,
              runAction := st.runAction.map upd }

/-- What a piece of `animate` leaves behind: the variables, and whether it
ended by an exception instead of running to its end. -/
structure FrameResult where
  world : World
  threw : Bool
deriving DecidableEq, Repr

/-- The assignment `runAction.timeScale = v`, which raises a TypeError when
`runAction` is `undefined`. -/
def setRunTimeScale (v : ℚ) (st : World) : FrameResult :=
  match st.runAction with
  | none => ⟨st, true⟩
  | some a => ⟨{ st with runAction := some { a with timeScale := v } }, false⟩

/-- The animation half of a frame: the block `if (moving) ... else ...`. -/
def blend (st : World) : FrameResult :=
  let movingForward := st.keys.w
  let movingBackward := st.keys.s
  let moving := movingForward || movingBackward
  if moving then
    let st1 :=
      if st.runAction.isSome && st.currentAction != some .run then
        crossFadeTo (st.ref .run) 0.5 st
      else st
    if movingBackward && !movingForward then
      setRunTimeScale 0.5 st1
    else
      setRunTimeScale 1.0 st1
  else
    ⟨if st.idleAction.isSome && st.currentAction != some .idle then
        crossFadeTo (st.ref .idle) 0.5 st
      else st, false⟩

/-- The translation and rotation of a frame, before the boundary clamp. -/
def move (H : Host) (ks : Keys) (model : Object3D) : Object3D :=
  let forward := (Vector3.mk 0 0 1).applyQuaternion model.quaternion
  let m1 := if ks.w then
      { model with position := model.position.add (forward.multiplyScalar moveSpeed) }
    else model
  let m2 := if ks.s then
      { m1 with position := m1.position.add (forward.multiplyScalar (-moveSpeed)) }
    else m1
  let m3 := if ks.a then m2.setRotationY H.cos H.sin (m2.rotation.y + rotationSpeed) else m2
  if ks.d then m3.setRotationY H.cos H.sin (m3.rotation.y - rotationSpeed) else m3

/-- The world boundary: x and z are clamped, each on its own. -/
def clampToWorld (model : Object3D) : Object3D :=
  let p := model.position
  let p1 : Vector3 := { p with x := max (-worldBoundary) (min worldBoundary p.x) }
  let p2 : Vector3 := { p1 with z := max (-worldBoundary) (min worldBoundary p1.z) }
  { model with position := p2 }

/-- The function `animate()`, for the elapsed time `delta` that
`clock.getDelta()` returns.  Scheduling the next frame and rendering do not
touch the variables; an exception ends the call where it is raised. -/
def animate (H : Host) (delta : ℚ) (st0 : World) : FrameResult :=
  let st := mixerUpdate H delta st0
  match st.model with
  | none => ⟨st, false⟩
  | some _ =>
    let r := blend st
    if r.threw then r
    else
      let st1 := r.world
      let st2 : World :=
        { st1 with model := st1.model.map (fun m => clampToWorld (move H st1.keys m)) }
      ⟨updateCamera st2, false⟩

/-! ## Runs of the program -/

/-- What can happen to the page: a key goes down or up, a load succeeds or
fails, a frame is drawn. -/
inductive Event where
  | keydown (key : String)
  | keyup (key : String)
  | idleLoaded (fbx : Fbx)
  | idleFailed
  | runLoaded (fbx : Fbx)
  | runFailed
  | frame (delta : ℚ)
deriving DecidableEq, Repr

/-- One event.  A load callback fires only while its load is under way, and
then once; a frame that raises leaves the variables as they were when the
exception was thrown. -/
def dispatch (H : Host) (st : World) : Event → World
  | .keydown key => keydown key st
  | .keyup key => keyup key st
  | .idleLoaded fbx =>
    if st.idlePending then onIdleLoaded fbx { st with idlePending := false } else st
  | .idleFailed => { st with idlePending := false }
  | .runLoaded fbx =>
    if st.runPending then onRunLoaded fbx { st with runPending := false } else st
  | .runFailed => { st with runPending := false }
  | .frame delta => (animate H delta st).world

/-- The state after a sequence of events, from the initial state. -/
def replay (H : Host) (evs : List Event) : World :=
  evs.foldl (dispatch H) World.initial

/-- A run of frames with the given elapsed times. -/
def frames (H : Host) (deltas : List ℚ) (st : World) : World :=
  deltas.foldl (fun s delta => (animate H delta s).world) st

/-- The Loaded state of the frame driver: the character and the idle action
are present. -/
def Loaded (st : World) : Prop :=
  st.model.isSome ∧ st.idleAction.isSome

instance (st : World) : Decidable (Loaded st) := by
  unfold Loaded; infer_instance

/-- What the variables satisfy in every state the page can reach. -/
structure WellFormed (st : World) : Prop where
  pending : st.idlePending = true →
    st.model = none ∧ st.idleAction = none ∧ st.runAction = none ∧
      st.currentAction = none ∧ st.runPending = false
  runPending_model : st.runPending = true → st.model.isSome
  model_mixer : st.model.isSome → st.mixer.isSome
  run_model : st.runAction.isSome → st.model.isSome
  idle_model : st.idleAction.isSome → st.model.isSome
  idle_current : st.idleAction.isSome →
    st.currentAction = some .idle ∨ st.currentAction = some .run
  current_idle : st.currentAction = some .idle → st.idleAction.isSome
  current_run : st.currentAction = some .run → st.runAction.isSome
  bounds : ∀ m, st.model = some m →
    -50 ≤ m.position.x ∧ m.position.x ≤ 50 ∧ -50 ≤ m.position.z ∧ m.position.z ≤ 50

/-- Whether an event is a key event for the property `name` of `keys`, the
event's key compared without regard to case. -/
def Event.names (name : String) : Event → Bool
  | .keydown key => key.toLower = name
  | .keyup key => key.toLower = name
  | _ => false

/-- Whether an event is a keydown. -/
def Event.isKeydown : Event → Bool
  | .keydown _ => true
  | _ => false

/-- The last event of a sequence that names the key. -/
def lastKeyEvent (name : String) (evs : List Event) : Option Event :=
  (evs.filter (Event.names name)).getLast?

/-- Whether the last event naming the key is a keydown; `start` when no event
names it. -/
def heldAfter (start : Bool) (name : String) (evs : List Event) : Bool :=
  match lastKeyEvent name evs with
  | some e => e.isKeydown
  | none => start

/-- A host for evaluating runs: short Taylor polynomials for the
trigonometric functions, and an action update that advances the time of an
enabled, unpaused action. -/
def sampleHost : Host :=
  { cos := fun t => 1 - t ^ 2 / 2 + t ^ 4 / 24
    sin := fun t => t - t ^ 3 / 6
    updateAction := fun _ delta a =>
      if a.enabled && !a.paused then { a with time := a.time + delta * a.timeScale } else a }

/-- An idle asset with one clip, at the identity orientation. -/
def sampleIdleFbx : Fbx :=
  { object := ⟨⟨0, 0, 0⟩, ⟨0, 0, 0⟩, Quaternion.identity, ⟨1, 1, 1⟩⟩
    animations := [⟨"mixamo.com", 2, [⟨"Hips.position"⟩, ⟨"Hips.quaternion"⟩]⟩] }

/-- A run asset with one clip that has a position track. -/
def sampleRunFbx : Fbx :=
  { object := ⟨⟨0, 0, 0⟩, ⟨0, 0, 0⟩, Quaternion.identity, ⟨1, 1, 1⟩⟩
    animations := [⟨"mixamo.com", 1, [⟨"Hips.position"⟩, ⟨"Hips.quaternion"⟩]⟩] }

/-- An asset without any clip. -/
def sampleBareFbx : Fbx :=
  { object := ⟨⟨0, 0, 0⟩, ⟨0, 0, 0⟩, Quaternion.identity, ⟨1, 1, 1⟩⟩
    animations := [] }

/-- Both assets loaded, in the order the loader delivers them. -/
def sampleLoaded : List Event :=
  [.idleLoaded sampleIdleFbx, .runLoaded sampleRunFbx]

/-- The model at the origin as the idle callback leaves it. -/
def sampleModel : Object3D :=
  ⟨⟨0, 0, 0⟩, ⟨0, 0, 0⟩, Quaternion.identity, ⟨0.01, 0.01, 0.01⟩⟩

/-! ## What each piece leaves alone -/

section Frame

variable (H : Host) (delta duration v : ℚ) (newAction : Option ActionRef) (st : World)

@[simp] theorem modify_model (r : ActionRef) (f : AnimationAction → AnimationAction) :
    (st.modify r f).model = st.model := by
  cases r <;> rfl

@[simp] theorem modify_mixer (r : ActionRef) (f : AnimationAction → AnimationAction) :
    (st.modify r f).mixer = st.mixer := by
  cases r <;> rfl

@[simp] theorem modify_keys (r : ActionRef) (f : AnimationAction → AnimationAction) :
    (st.modify r f).keys = st.keys := by
  cases r <;> rfl

@[simp] theorem modify_camera (r : ActionRef) (f : AnimationAction → AnimationAction) :
    (st.modify r f).camera = st.camera := by
  cases r <;> rfl

@[simp] theorem modify_currentAction (r : ActionRef) (f : AnimationAction → AnimationAction) :
    (st.modify r f).currentAction = st.currentAction := by
  cases r <;> rfl

@[simp] theorem modify_idlePending (r : ActionRef) (f : AnimationAction → AnimationAction) :
    (st.modify r f).idlePending = st.idlePending := by
  cases r <;> rfl

@[simp] theorem modify_runPending (r : ActionRef) (f : AnimationAction → AnimationAction) :
    (st.modify r f).runPending = st.runPending := by
  cases r <;> rfl

@[simp] theorem modify_now (r : ActionRef) (f : AnimationAction → AnimationAction) :
    (st.modify r f).now = st.now := by
  cases r <;> rfl

theorem modify_deref_same (r : ActionRef) (f : AnimationAction → AnimationAction) :
    (st.modify r f).deref r = (st.deref r).map f := by
  cases r <;> rfl

theorem modify_deref_other (r q : ActionRef) (f : AnimationAction → AnimationAction)
    (h : q ≠ r) : (st.modify r f).deref q = st.deref q := by
  cases r <;> cases q <;> first | rfl | exact absurd rfl h

@[simp] theorem modify_idleAction_isSome (r : ActionRef) (f : AnimationAction → AnimationAction) :
    (st.modify r f).idleAction.isSome = st.idleAction.isSome := by
  cases r <;> simp [World.modify]

@[simp] theorem modify_runAction_isSome (r : ActionRef) (f : AnimationAction → AnimationAction) :
    (st.modify r f).runAction.isSome = st.runAction.isSome := by
  cases r <;> simp [World.modify]

/-- The shape of `crossFadeTo` when it does fade. -/
theorem crossFadeTo_fade (n c : ActionRef) (hc : st.currentAction = some c) (hne : n ≠ c) :
    crossFadeTo (some n) duration st =
      { (((st.modify n AnimationAction.reset).modify c
            (AnimationAction.fadeOut st.now duration)).modify n
            (AnimationAction.fadeIn st.now duration)).modify n AnimationAction.play with
        currentAction := some n } := by
  simp [crossFadeTo, hc, hne]

/-- The three guards of `crossFadeTo`. -/
theorem crossFadeTo_noop
    (h : newAction = none ∨ st.currentAction = none ∨ newAction = st.currentAction) :
    crossFadeTo newAction duration st = st := by
  unfold crossFadeTo
  rcases h with h | h | h
  · subst h; rfl
  · rw [h]; cases newAction <;> rfl
  · subst h; cases hc : st.currentAction <;> simp

/-- Either guard or fade. -/
theorem crossFadeTo_cases :
    crossFadeTo newAction duration st = st ∨
      ∃ n c, newAction = some n ∧ st.currentAction = some c ∧ n ≠ c ∧
        crossFadeTo newAction duration st =
          { (((st.modify n AnimationAction.reset).modify c
                (AnimationAction.fadeOut st.now duration)).modify n
                (AnimationAction.fadeIn st.now duration)).modify n AnimationAction.play with
            currentAction := some n } := by
  cases hn : newAction with
  | none => exact Or.inl (crossFadeTo_noop _ _ _ (Or.inl rfl))
  | some n =>
    cases hc : st.currentAction with
    | none => exact Or.inl (crossFadeTo_noop _ _ _ (Or.inr (Or.inl hc)))
    | some c =>
      by_cases hne : n = c
      · exact Or.inl (crossFadeTo_noop _ _ _ (Or.inr (Or.inr (by rw [hc, hne]))))
      · exact Or.inr ⟨n, c, rfl, rfl, hne, crossFadeTo_fade duration st n c hc hne⟩

@[simp] theorem crossFadeTo_model : (crossFadeTo newAction duration st).model = st.model := by
  rcases crossFadeTo_cases duration newAction st with h | ⟨n, c, -, -, -, h⟩
  · rw [h]
  · rw [h]; simp

@[simp] theorem crossFadeTo_mixer : (crossFadeTo newAction duration st).mixer = st.mixer := by
  rcases crossFadeTo_cases duration newAction st with h | ⟨n, c, -, -, -, h⟩
  · rw [h]
  · rw [h]; simp

@[simp] theorem crossFadeTo_keys : (crossFadeTo newAction duration st).keys = st.keys := by
  rcases crossFadeTo_cases duration newAction st with h | ⟨n, c, -, -, -, h⟩
  · rw [h]
  · rw [h]; simp

@[simp] theorem crossFadeTo_camera : (crossFadeTo newAction duration st).camera = st.camera := by
  rcases crossFadeTo_cases duration newAction st with h | ⟨n, c, -, -, -, h⟩
  · rw [h]
  · rw [h]; simp

@[simp] theorem crossFadeTo_idlePending :
    (crossFadeTo newAction duration st).idlePending = st.idlePending := by
  rcases crossFadeTo_cases duration newAction st with h | ⟨n, c, -, -, -, h⟩
  · rw [h]
  · rw [h]; simp

@[simp] theorem crossFadeTo_runPending :
    (crossFadeTo newAction duration st).runPending = st.runPending := by
  rcases crossFadeTo_cases duration newAction st with h | ⟨n, c, -, -, -, h⟩
  · rw [h]
  · rw [h]; simp

@[simp] theorem crossFadeTo_idleAction_isSome :
    (crossFadeTo newAction duration st).idleAction.isSome = st.idleAction.isSome := by
  rcases crossFadeTo_cases duration newAction st with h | ⟨n, c, -, -, -, h⟩
  · rw [h]
  · rw [h]; simp

@[simp] theorem crossFadeTo_runAction_isSome :
    (crossFadeTo newAction duration st).runAction.isSome = st.runAction.isSome := by
  rcases crossFadeTo_cases duration newAction st with h | ⟨n, c, -, -, -, h⟩
  · rw [h]
  · rw [h]; simp

/-- After `crossFadeTo`, `currentAction` is what it was, or the argument; it
is `null` only if it was `null` before. -/
theorem crossFadeTo_currentAction :
    (crossFadeTo newAction duration st).currentAction = st.currentAction ∨
      (st.currentAction ≠ none ∧ newAction ≠ none ∧
        (crossFadeTo newAction duration st).currentAction = newAction) := by
  rcases crossFadeTo_cases duration newAction st with h | ⟨n, c, hn, hc, -, h⟩
  · rw [h]; exact Or.inl rfl
  · rw [h]; right; simp [hn, hc]

@[simp] theorem mixerUpdate_model : (mixerUpdate H delta st).model = st.model := by
  unfold mixerUpdate; cases st.mixer <;> rfl

@[simp] theorem mixerUpdate_keys : (mixerUpdate H delta st).keys = st.keys := by
  unfold mixerUpdate; cases st.mixer <;> rfl

@[simp] theorem mixerUpdate_camera : (mixerUpdate H delta st).camera = st.camera := by
  unfold mixerUpdate; cases st.mixer <;> rfl

@[simp] theorem mixerUpdate_currentAction :
    (mixerUpdate H delta st).currentAction = st.currentAction := by
  unfold mixerUpdate; cases st.mixer <;> rfl

@[simp] theorem mixerUpdate_idlePending :
    (mixerUpdate H delta st).idlePending = st.idlePending := by
  unfold mixerUpdate; cases st.mixer <;> rfl

@[simp] theorem mixerUpdate_runPending :
    (mixerUpdate H delta st).runPending = st.runPending := by
  unfold mixerUpdate; cases st.mixer <;> rfl

@[simp] theorem mixerUpdate_idleAction_isSome :
    (mixerUpdate H delta st).idleAction.isSome = st.idleAction.isSome := by
  unfold mixerUpdate; cases st.mixer <;> simp

@[simp] theorem mixerUpdate_runAction_isSome :
    (mixerUpdate H delta st).runAction.isSome = st.runAction.isSome := by
  unfold mixerUpdate; cases st.mixer <;> simp

@[simp] theorem mixerUpdate_mixer_isSome :
    (mixerUpdate H delta st).mixer.isSome = st.mixer.isSome := by
  cases h : st.mixer <;> simp [mixerUpdate, h]

@[simp] theorem setRunTimeScale_model : (setRunTimeScale v st).world.model = st.model := by
  unfold setRunTimeScale; cases st.runAction <;> rfl

@[simp] theorem setRunTimeScale_mixer : (setRunTimeScale v st).world.mixer = st.mixer := by
  unfold setRunTimeScale; cases st.runAction <;> rfl

@[simp] theorem setRunTimeScale_keys : (setRunTimeScale v st).world.keys = st.keys := by
  unfold setRunTimeScale; cases st.runAction <;> rfl

@[simp] theorem setRunTimeScale_camera : (setRunTimeScale v st).world.camera = st.camera := by
  unfold setRunTimeScale; cases st.runAction <;> rfl

@[simp] theorem setRunTimeScale_currentAction :
    (setRunTimeScale v st).world.currentAction = st.currentAction := by
  unfold setRunTimeScale; cases st.runAction <;> rfl

@[simp] theorem setRunTimeScale_idlePending :
    (setRunTimeScale v st).world.idlePending = st.idlePending := by
  unfold setRunTimeScale; cases st.runAction <;> rfl

@[simp] theorem setRunTimeScale_runPending :
    (setRunTimeScale v st).world.runPending = st.runPending := by
  unfold setRunTimeScale; cases st.runAction <;> rfl

@[simp] theorem setRunTimeScale_idleAction :
    (setRunTimeScale v st).world.idleAction = st.idleAction := by
  unfold setRunTimeScale; cases st.runAction <;> rfl

@[simp] theorem setRunTimeScale_runAction :
    (setRunTimeScale v st).world.runAction =
      st.runAction.map (fun a => { a with timeScale := v }) := by
  cases h : st.runAction <;> simp [setRunTimeScale, h]

@[simp] theorem setRunTimeScale_threw :
    (setRunTimeScale v st).threw = !st.runAction.isSome := by
  cases h : st.runAction <;> simp [setRunTimeScale, h]

@[simp] theorem blend_model : (blend st).world.model = st.model := by
  unfold blend; simp only []; split_ifs <;> simp

@[simp] theorem blend_mixer : (blend st).world.mixer = st.mixer := by
  unfold blend; simp only []; split_ifs <;> simp

@[simp] theorem blend_keys : (blend st).world.keys = st.keys := by
  unfold blend; simp only []; split_ifs <;> simp

@[simp] theorem blend_camera : (blend st).world.camera = st.camera := by
  unfold blend; simp only []; split_ifs <;> simp

@[simp] theorem blend_idlePending : (blend st).world.idlePending = st.idlePending := by
  unfold blend; simp only []; split_ifs <;> simp

@[simp] theorem blend_runPending : (blend st).world.runPending = st.runPending := by
  unfold blend; simp only []; split_ifs <;> simp

@[simp] theorem blend_idleAction_isSome :
    (blend st).world.idleAction.isSome = st.idleAction.isSome := by
  unfold blend; simp only []; split_ifs <;> simp

@[simp] theorem blend_runAction_isSome :
    (blend st).world.runAction.isSome = st.runAction.isSome := by
  unfold blend; simp only []; split_ifs <;> simp

/-- The animation half of a frame raises exactly when a movement key is held
and `runAction` is `undefined`. -/
theorem blend_threw :
    (blend st).threw = ((st.keys.w || st.keys.s) && !st.runAction.isSome) := by
  unfold blend; simp only []; split_ifs with h1 h2 h3 <;> simp_all

/-- The animation half of a frame while a movement key is held. -/
theorem blend_moving (h : (st.keys.w || st.keys.s) = true) :
    blend st =
      setRunTimeScale (if (st.keys.s && !st.keys.w) = true then 0.5 else 1.0)
        (if (st.runAction.isSome && st.currentAction != some .run) = true then
          crossFadeTo (st.ref .run) 0.5 st else st) := by
  unfold blend; simp only [h, if_true]; split_ifs <;> rfl

/-- The animation half of a frame while no movement key is held. -/
theorem blend_still (h : (st.keys.w || st.keys.s) = false) :
    blend st =
      ⟨if (st.idleAction.isSome && st.currentAction != some .idle) = true then
          crossFadeTo (st.ref .idle) 0.5 st else st, false⟩ := by
  unfold blend; simp [h]

/-- The animation half of a frame keeps `currentAction`, or moves it to an
action that exists; it never sets it to `null`. -/
theorem blend_currentAction :
    (blend st).world.currentAction = st.currentAction ∨
      (st.currentAction ≠ none ∧
        (((st.keys.w || st.keys.s) = true ∧ st.runAction.isSome ∧
            (blend st).world.currentAction = some .run) ∨
         ((st.keys.w || st.keys.s) = false ∧ st.idleAction.isSome ∧
            (blend st).world.currentAction = some .idle))) := by
  cases hmov : (st.keys.w || st.keys.s) with
  | true =>
    rw [blend_moving st hmov]
    simp only [setRunTimeScale_currentAction]
    by_cases hg : (st.runAction.isSome && st.currentAction != some .run) = true
    · rw [if_pos hg]
      simp only [Bool.and_eq_true] at hg
      rcases crossFadeTo_currentAction 0.5 (st.ref .run) st with h | ⟨ha, -, h⟩
      · exact Or.inl h
      · refine Or.inr ⟨ha, Or.inl ⟨trivial, hg.1, ?_⟩⟩
        rw [h]; simp [World.ref, World.deref, hg.1]
    · rw [if_neg hg]; exact Or.inl rfl
  | false =>
    rw [blend_still st hmov]
    by_cases hg : (st.idleAction.isSome && st.currentAction != some .idle) = true
    · simp only [if_pos hg]
      simp only [Bool.and_eq_true] at hg
      rcases crossFadeTo_currentAction 0.5 (st.ref .idle) st with h | ⟨ha, -, h⟩
      · exact Or.inl h
      · refine Or.inr ⟨ha, Or.inr ⟨trivial, hg.1, ?_⟩⟩
        rw [h]; simp [World.ref, World.deref, hg.1]
    · simp only [if_neg hg]; exact Or.inl trivial

theorem animate_of_no_model (h : st.model = none) :
    animate H delta st = ⟨mixerUpdate H delta st, false⟩ := by
  simp [animate, h]

theorem animate_of_threw (h : st.model.isSome)
    (ht : (blend (mixerUpdate H delta st)).threw = true) :
    animate H delta st = blend (mixerUpdate H delta st) := by
  obtain ⟨m, hm⟩ := Option.isSome_iff_exists.mp h
  simp [animate, hm, ht]

theorem animate_of_returned (m : Object3D) (h : st.model = some m)
    (ht : (blend (mixerUpdate H delta st)).threw = false) :
    animate H delta st =
      ⟨updateCamera { (blend (mixerUpdate H delta st)).world with
          model := some (clampToWorld (move H st.keys m)) }, false⟩ := by
  simp [animate, h, ht]

/-- A frame raises exactly when the model is there, a movement key is held
and `runAction` is `undefined`. -/
theorem animate_threw :
    (animate H delta st).threw =
      (st.model.isSome && (st.keys.w || st.keys.s) && !st.runAction.isSome) := by
  cases hm : st.model with
  | none => simp [animate_of_no_model H delta st hm]
  | some m =>
    cases ht : (blend (mixerUpdate H delta st)).threw with
    | true =>
      rw [animate_of_threw H delta st (by simp [hm]) ht, ht]
      rw [blend_threw] at ht; simpa using ht
    | false =>
      rw [animate_of_returned H delta st m hm ht]
      rw [blend_threw] at ht; simpa using ht

@[simp] theorem updateCamera_model : (updateCamera st).model = st.model := by
  cases h : st.model <;> simp [updateCamera, h]

@[simp] theorem updateCamera_mixer : (updateCamera st).mixer = st.mixer := by
  unfold updateCamera; cases st.model <;> rfl

@[simp] theorem updateCamera_keys : (updateCamera st).keys = st.keys := by
  unfold updateCamera; cases st.model <;> rfl

@[simp] theorem updateCamera_idleAction : (updateCamera st).idleAction = st.idleAction := by
  unfold updateCamera; cases st.model <;> rfl

@[simp] theorem updateCamera_runAction : (updateCamera st).runAction = st.runAction := by
  unfold updateCamera; cases st.model <;> rfl

@[simp] theorem updateCamera_currentAction :
    (updateCamera st).currentAction = st.currentAction := by
  unfold updateCamera; cases st.model <;> rfl

@[simp] theorem updateCamera_idlePending : (updateCamera st).idlePending = st.idlePending := by
  unfold updateCamera; cases st.model <;> rfl

@[simp] theorem updateCamera_runPending : (updateCamera st).runPending = st.runPending := by
  unfold updateCamera; cases st.model <;> rfl

/-- The three shapes of a frame: no model; the animation half raises; the
frame runs to its end. -/
theorem animate_cases :
    (st.model = none ∧ animate H delta st = ⟨mixerUpdate H delta st, false⟩) ∨
    (st.model.isSome ∧ (blend (mixerUpdate H delta st)).threw = true ∧
      animate H delta st = blend (mixerUpdate H delta st)) ∨
    (∃ m, st.model = some m ∧ (blend (mixerUpdate H delta st)).threw = false ∧
      animate H delta st =
        ⟨updateCamera { (blend (mixerUpdate H delta st)).world with
            model := some (clampToWorld (move H st.keys m)) }, false⟩) := by
  cases hm : st.model with
  | none => exact Or.inl ⟨rfl, animate_of_no_model H delta st hm⟩
  | some m =>
    cases ht : (blend (mixerUpdate H delta st)).threw with
    | true => exact Or.inr (Or.inl ⟨rfl, rfl, animate_of_threw H delta st (by simp [hm]) ht⟩)
    | false => exact Or.inr (Or.inr ⟨m, rfl, rfl, animate_of_returned H delta st m hm ht⟩)

@[simp] theorem animate_keys : (animate H delta st).world.keys = st.keys := by
  rcases animate_cases H delta st with ⟨-, h⟩ | ⟨-, -, h⟩ | ⟨m, -, -, h⟩ <;> rw [h] <;> simp

@[simp] theorem animate_idlePending :
    (animate H delta st).world.idlePending = st.idlePending := by
  rcases animate_cases H delta st with ⟨-, h⟩ | ⟨-, -, h⟩ | ⟨m, -, -, h⟩ <;> rw [h] <;> simp

@[simp] theorem animate_runPending :
    (animate H delta st).world.runPending = st.runPending := by
  rcases animate_cases H delta st with ⟨-, h⟩ | ⟨-, -, h⟩ | ⟨m, -, -, h⟩ <;> rw [h] <;> simp

@[simp] theorem animate_idleAction_isSome :
    (animate H delta st).world.idleAction.isSome = st.idleAction.isSome := by
  rcases animate_cases H delta st with ⟨-, h⟩ | ⟨-, -, h⟩ | ⟨m, -, -, h⟩ <;> rw [h] <;> simp

@[simp] theorem animate_runAction_isSome :
    (animate H delta st).world.runAction.isSome = st.runAction.isSome := by
  rcases animate_cases H delta st with ⟨-, h⟩ | ⟨-, -, h⟩ | ⟨m, -, -, h⟩ <;> rw [h] <;> simp

@[simp] theorem animate_mixer_isSome :
    (animate H delta st).world.mixer.isSome = st.mixer.isSome := by
  rcases animate_cases H delta st with ⟨-, h⟩ | ⟨-, -, h⟩ | ⟨m, -, -, h⟩ <;> rw [h] <;> simp

@[simp] theorem animate_model_isSome :
    (animate H delta st).world.model.isSome = st.model.isSome := by
  rcases animate_cases H delta st with ⟨-, h⟩ | ⟨-, -, h⟩ | ⟨m, hm, -, h⟩
  · rw [h]; simp
  · rw [h]; simp
  · rw [h]; simp [hm]

/-- A frame keeps `currentAction`, or moves it from one action to another
that exists; it never sets it to `null`. -/
theorem animate_currentAction :
    (animate H delta st).world.currentAction = st.currentAction ∨
      (st.currentAction ≠ none ∧
        ((st.runAction.isSome ∧ (animate H delta st).world.currentAction = some .run) ∨
         (st.idleAction.isSome ∧ (animate H delta st).world.currentAction = some .idle))) := by
  have hb := blend_currentAction (mixerUpdate H delta st)
  simp only [mixerUpdate_currentAction, mixerUpdate_keys, mixerUpdate_runAction_isSome,
    mixerUpdate_idleAction_isSome] at hb
  rcases animate_cases H delta st with ⟨-, h⟩ | ⟨-, -, h⟩ | ⟨m, -, -, h⟩
  · rw [h]; exact Or.inl (by simp)
  · rw [h]
    rcases hb with hb | ⟨ha, ⟨-, hr, hb⟩ | ⟨-, hi, hb⟩⟩
    · exact Or.inl hb
    · exact Or.inr ⟨ha, Or.inl ⟨hr, hb⟩⟩
    · exact Or.inr ⟨ha, Or.inr ⟨hi, hb⟩⟩
  · rw [h]
    simp only [updateCamera_currentAction]
    rcases hb with hb | ⟨ha, ⟨-, hr, hb⟩ | ⟨-, hi, hb⟩⟩
    · exact Or.inl hb
    · exact Or.inr ⟨ha, Or.inl ⟨hr, hb⟩⟩
    · exact Or.inr ⟨ha, Or.inr ⟨hi, hb⟩⟩

/-- The clamp, component by component. -/
theorem clampToWorld_position (o : Object3D) :
    (clampToWorld o).position =
      ⟨max (-50) (min 50 o.position.x), o.position.y, max (-50) (min 50 o.position.z)⟩ := by
  simp [clampToWorld, worldBoundary]

theorem clampToWorld_bounds (o : Object3D) :
    -50 ≤ (clampToWorld o).position.x ∧ (clampToWorld o).position.x ≤ 50 ∧
      -50 ≤ (clampToWorld o).position.z ∧ (clampToWorld o).position.z ≤ 50 := by
  rw [clampToWorld_position]
  refine ⟨le_max_left _ _, max_le (by norm_num) (min_le_left _ _),
    le_max_left _ _, max_le (by norm_num) (min_le_left _ _)⟩

end Frame

/-! ## The reachable states -/

theorem isSome_eq_false_of_eq_none {α : Type} {o : Option α} (h : o = none) :
    o.isSome = false := by
  rw [h]; rfl

theorem eq_none_of_isSome_eq_false {α : Type} {o : Option α} (h : o.isSome = false) :
    o = none := by
  cases o with
  | none => rfl
  | some a => exact absurd h (by simp)

theorem wellFormed_initial : WellFormed World.initial where
  pending := fun _ => ⟨rfl, rfl, rfl, rfl, rfl⟩
  runPending_model := fun h => absurd h (by decide)
  model_mixer := fun h => absurd h (by decide)
  run_model := fun h => absurd h (by decide)
  idle_model := fun h => absurd h (by decide)
  idle_current := fun h => absurd h (by decide)
  current_idle := fun h => absurd h (by decide)
  current_run := fun h => absurd h (by decide)
  bounds := fun m h => absurd h (by simp [World.initial])

theorem wellFormed_keys (st : World) (ks : Keys) (h : WellFormed st) :
    WellFormed { st with keys := ks } :=
  ⟨h.pending, h.runPending_model, h.model_mixer, h.run_model, h.idle_model, h.idle_current,
    h.current_idle, h.current_run, h.bounds⟩

theorem wellFormed_onIdleLoaded (fbx : Fbx) (st : World) (h : WellFormed st)
    (hp : st.idlePending = true) :
    WellFormed (onIdleLoaded fbx { st with idlePending := false }) := by
  obtain ⟨-, -, hrun, hcur, -⟩ := h.pending hp
  cases ha : fbx.animations with
  | nil =>
    constructor <;> simp [onIdleLoaded, ha, hrun, hcur]
    exact (h.pending hp).2.1
  | cons clip rest =>
    constructor <;> simp [onIdleLoaded, ha, hrun, hcur]

theorem wellFormed_onRunLoaded (fbx : Fbx) (st : World) (h : WellFormed st)
    (hp : st.runPending = true) :
    WellFormed (onRunLoaded fbx { st with runPending := false }) := by
  have hm := h.runPending_model hp
  have hi : st.idlePending = false := by
    cases hq : st.idlePending with
    | false => rfl
    | true => have := (h.pending hq).2.2.2.2; rw [hp] at this; exact absurd this (by decide)
  cases ha : fbx.animations with
  | nil =>
    simp only [onRunLoaded, ha]
    exact ⟨fun q => absurd q (by simp [hi]), fun q => absurd q (by simp), h.model_mixer,
      h.run_model, h.idle_model, h.idle_current, h.current_idle, h.current_run, h.bounds⟩
  | cons clip rest =>
    simp only [onRunLoaded, ha]
    exact ⟨fun q => absurd q (by simp [hi]), fun q => absurd q (by simp), h.model_mixer,
      fun _ => hm, h.idle_model, h.idle_current, h.current_idle, fun _ => rfl, h.bounds⟩

theorem wellFormed_animate (H : Host) (delta : ℚ) (st : World) (h : WellFormed st) :
    WellFormed (animate H delta st).world where
  pending := by
    intro hp
    rw [animate_idlePending] at hp
    obtain ⟨hm, hi, hr, hc, hq⟩ := h.pending hp
    rw [animate_of_no_model H delta st hm]
    refine ⟨by simp [hm], eq_none_of_isSome_eq_false ?_, eq_none_of_isSome_eq_false ?_,
      by simp [hc], by simp [hq]⟩
    · simp [hi]
    · simp [hr]
  runPending_model := by simpa using h.runPending_model
  model_mixer := by simpa using h.model_mixer
  run_model := by simpa using h.run_model
  idle_model := by simpa using h.idle_model
  idle_current := by
    intro hi
    rw [animate_idleAction_isSome] at hi
    rcases animate_currentAction H delta st with hc | ⟨-, ⟨-, hc⟩ | ⟨-, hc⟩⟩
    · rw [hc]; exact h.idle_current hi
    · exact Or.inr hc
    · exact Or.inl hc
  current_idle := by
    intro hc
    rw [animate_idleAction_isSome]
    rcases animate_currentAction H delta st with hc2 | ⟨-, ⟨-, hc2⟩ | ⟨hi, -⟩⟩
    · rw [hc2] at hc; exact h.current_idle hc
    · rw [hc2] at hc; exact absurd hc (by decide)
    · exact hi
  current_run := by
    intro hc
    rw [animate_runAction_isSome]
    rcases animate_currentAction H delta st with hc2 | ⟨-, ⟨hr, -⟩ | ⟨-, hc2⟩⟩
    · rw [hc2] at hc; exact h.current_run hc
    · exact hr
    · rw [hc2] at hc; exact absurd hc (by decide)
  bounds := by
    intro m hm
    rcases animate_cases H delta st with ⟨hn, he⟩ | ⟨-, -, he⟩ | ⟨m0, -, -, he⟩
    · rw [he] at hm; simp [hn] at hm
    · rw [he] at hm; simp at hm; exact h.bounds m hm
    · rw [he] at hm
      simp at hm
      rw [← hm]
      exact clampToWorld_bounds _

theorem wellFormed_dispatch (H : Host) (st : World) (e : Event) (h : WellFormed st) :
    WellFormed (dispatch H st e) := by
  cases e with
  | keydown key => exact wellFormed_keys st _ h
  | keyup key => exact wellFormed_keys st _ h
  | idleLoaded fbx =>
    simp only [dispatch]
    split_ifs with hp
    · exact wellFormed_onIdleLoaded fbx st h hp
    · exact h
  | idleFailed =>
    exact ⟨fun q => absurd q (by simp [dispatch]), h.runPending_model, h.model_mixer, h.run_model,
      h.idle_model, h.idle_current, h.current_idle, h.current_run, h.bounds⟩
  | runLoaded fbx =>
    simp only [dispatch]
    split_ifs with hp
    · exact wellFormed_onRunLoaded fbx st h hp
    · exact h
  | runFailed =>
    refine ⟨fun q => ?_, fun q => absurd q (by simp [dispatch]), h.model_mixer, h.run_model,
      h.idle_model, h.idle_current, h.current_idle, h.current_run, h.bounds⟩
    obtain ⟨a, b, c, d, -⟩ := h.pending q
    exact ⟨a, b, c, d, rfl⟩
  | frame delta => exact wellFormed_animate H delta st h

theorem wellFormed_foldl (H : Host) (evs : List Event) (st : World) (h : WellFormed st) :
    WellFormed (evs.foldl (dispatch H) st) := by
  induction evs generalizing st with
  | nil => exact h
  | cons e rest ih => exact ih _ (wellFormed_dispatch H st e h)

/-- Every state the page can reach is well formed. -/
theorem wellFormed_replay (H : Host) (evs : List Event) : WellFormed (replay H evs) :=
  wellFormed_foldl H evs _ wellFormed_initial

/-! ## The animation half of a frame -/

/-- A frame with the model loaded, a movement key held and `runAction` still
`undefined` ends in the TypeError of `runAction.timeScale = ...`; nothing but
the mixer update has happened by then. -/
theorem animate_raises_without_run (H : Host) (delta : ℚ) (st : World)
    (hm : st.model.isSome) (hr : st.runAction = none)
    (hk : st.keys.w = true ∨ st.keys.s = true) :
    (animate H delta st).threw = true ∧
      (animate H delta st).world = mixerUpdate H delta st := by
  have ht : (blend (mixerUpdate H delta st)).threw = true := by
    rw [blend_threw]
    rcases hk with hk | hk <;> simp [hk, hr]
  refine ⟨by rw [animate_of_threw H delta st hm ht, ht], ?_⟩
  rw [animate_of_threw H delta st hm ht, blend_moving]
  · have hr2 : (mixerUpdate H delta st).runAction = none :=
      eq_none_of_isSome_eq_false (by simp [hr])
    simp [setRunTimeScale, hr2]
  · rcases hk with hk | hk <;> simp [hk]

/-- The run action after a frame in which it exists and a movement key is
held, on any state with a model. -/
theorem animate_run_timeScale (H : Host) (delta : ℚ) (st : World)
    (hm : st.model.isSome) (hr : st.runAction.isSome)
    (hk : st.keys.w = true ∨ st.keys.s = true) :
    (animate H delta st).threw = false ∧
      ∃ a, (animate H delta st).world.runAction = some a ∧
        a.timeScale = if st.keys.s = true ∧ st.keys.w = false then 0.5 else 1 := by
  obtain ⟨m, hm⟩ := Option.isSome_iff_exists.mp hm
  have hmov : ((mixerUpdate H delta st).keys.w || (mixerUpdate H delta st).keys.s) = true := by
    rcases hk with hk | hk <;> simp [hk]
  have ht : (blend (mixerUpdate H delta st)).threw = false := by
    rw [blend_threw]; simp [hr]
  rw [animate_of_returned H delta st m hm ht]
  refine ⟨rfl, ?_⟩
  simp only [updateCamera_runAction, blend_moving _ hmov, setRunTimeScale_runAction,
    mixerUpdate_keys]
  have hsome : (if ((mixerUpdate H delta st).runAction.isSome &&
        (mixerUpdate H delta st).currentAction != some .run) = true then
      crossFadeTo ((mixerUpdate H delta st).ref .run) 0.5 (mixerUpdate H delta st)
      else mixerUpdate H delta st).runAction.isSome = true := by
    split_ifs <;> simp [hr]
  obtain ⟨a, ha⟩ := Option.isSome_iff_exists.mp hsome
  rw [ha]
  refine ⟨_, rfl, ?_⟩
  cases hw : st.keys.w <;> cases hs : st.keys.s <;> norm_num

/-- A frame with a movement key held, the run action attached and some
action current makes the run action current. -/
theorem animate_selects_run (H : Host) (delta : ℚ) (st : World)
    (hm : st.model.isSome) (hr : st.runAction.isSome) (hc : st.currentAction ≠ none)
    (hk : st.keys.w = true ∨ st.keys.s = true) :
    (animate H delta st).world.currentAction = some .run := by
  obtain ⟨m, hm⟩ := Option.isSome_iff_exists.mp hm
  have hmov : ((mixerUpdate H delta st).keys.w || (mixerUpdate H delta st).keys.s) = true := by
    rcases hk with hk | hk <;> simp [hk]
  have ht : (blend (mixerUpdate H delta st)).threw = false := by
    rw [blend_threw]; simp [hr]
  rw [animate_of_returned H delta st m hm ht]
  simp only [updateCamera_currentAction, blend_moving _ hmov, setRunTimeScale_currentAction]
  obtain ⟨c, hc⟩ := Option.ne_none_iff_exists.mp hc
  cases c with
  | run => simp [← hc]
  | idle =>
    have href : (mixerUpdate H delta st).ref .run = some .run := by
      simp [World.ref, World.deref, hr]
    rw [if_pos (by simp [hr, ← hc]), href,
      crossFadeTo_fade 0.5 _ .run .idle (by simp [← hc]) (by decide)]

/-- A frame with no movement key held, the idle action present and the run
action current starts the fade to idle and makes idle current. -/
theorem animate_selects_idle (H : Host) (delta : ℚ) (st : World)
    (hm : st.model.isSome) (hi : st.idleAction.isSome) (hc : st.currentAction = some .run)
    (hw : st.keys.w = false) (hs : st.keys.s = false) :
    (animate H delta st).threw = false ∧
      (animate H delta st).world.currentAction = some .idle ∧
      (animate H delta st).world.idleAction =
        (mixerUpdate H delta st).idleAction.map (fun a =>
          ((a.reset).fadeIn (mixerUpdate H delta st).now 0.5).play) ∧
      (animate H delta st).world.runAction =
        (mixerUpdate H delta st).runAction.map
          (AnimationAction.fadeOut (mixerUpdate H delta st).now 0.5) := by
  obtain ⟨m, hm⟩ := Option.isSome_iff_exists.mp hm
  have hmov : ((mixerUpdate H delta st).keys.w || (mixerUpdate H delta st).keys.s) = false := by
    simp [hw, hs]
  have ht : (blend (mixerUpdate H delta st)).threw = false := by
    rw [blend_threw]; simp [hw, hs]
  have href : (mixerUpdate H delta st).ref .idle = some .idle := by
    simp [World.ref, World.deref, hi]
  rw [animate_of_returned H delta st m hm ht]
  simp only [updateCamera_currentAction, updateCamera_idleAction, updateCamera_runAction,
    blend_still _ hmov]
  rw [if_pos (by simp [hi, hc]), href,
    crossFadeTo_fade 0.5 _ .idle .run (by simp [hc]) (by decide)]
  refine ⟨trivial, rfl, ?_, ?_⟩
  · simp only [World.modify, Option.map_map]; rfl
  · simp [World.modify]

/-! ## The movement half of a frame -/

/-- The listeners assign under the lower-cased key; an unknown name assigns
nothing. -/
theorem onKey_eq_set (ks : Keys) (key : String) (v : Bool) :
    ks.onKey key v = ks.set key.toLower v := by
  by_cases h1 : key.toLower = "w" <;> by_cases h2 : key.toLower = "s" <;>
    by_cases h3 : key.toLower = "a" <;> by_cases h4 : key.toLower = "d" <;>
    simp_all [Keys.onKey, Keys.get?, Keys.set]

/-- Reading a flag after an assignment. -/
theorem set_get (ks : Keys) (n name : String) (v : Bool) :
    (ks.set n v).get? name =
      if n = name then (ks.get? name).map (fun _ => v) else ks.get? name := by
  by_cases hn : n = name
  · subst hn
    by_cases h1 : n = "w" <;> by_cases h2 : n = "s" <;>
      by_cases h3 : n = "a" <;> by_cases h4 : n = "d" <;>
      simp_all [Keys.get?, Keys.set]
  · rw [if_neg hn]
    by_cases h1 : n = "w"
    · subst h1
      have hn2 : ¬ name = "w" := fun h => hn h.symm
      simp [Keys.get?, Keys.set, hn2]
    · by_cases h2 : n = "s"
      · subst h2
        have hn2 : ¬ name = "s" := fun h => hn h.symm
        simp [Keys.get?, Keys.set, hn2]
      · by_cases h3 : n = "a"
        · subst h3
          have hn2 : ¬ name = "a" := fun h => hn h.symm
          simp [Keys.get?, Keys.set, hn2]
        · by_cases h4 : n = "d"
          · subst h4
            have hn2 : ¬ name = "d" := fun h => hn h.symm
            simp [Keys.get?, Keys.set, hn2]
          · simp [Keys.set, h1, h2, h3, h4]

/-- A key that is none of the four leaves the key map as it is. -/
theorem onKey_unknown (ks : Keys) (key : String) (v : Bool)
    (h : key.toLower ≠ "w" ∧ key.toLower ≠ "s" ∧ key.toLower ≠ "a" ∧ key.toLower ≠ "d") :
    ks.onKey key v = ks := by
  simp [Keys.onKey, Keys.get?, h.1, h.2.1, h.2.2.1, h.2.2.2]

/-- Handling the same key event twice is handling it once. -/
theorem onKey_idem (ks : Keys) (key : String) (v : Bool) :
    (ks.onKey key v).onKey key v = ks.onKey key v := by
  rw [onKey_eq_set, onKey_eq_set]
  by_cases h1 : key.toLower = "w" <;> by_cases h2 : key.toLower = "s" <;>
    by_cases h3 : key.toLower = "a" <;> by_cases h4 : key.toLower = "d" <;>
    simp_all [Keys.set]

/-- The flag a key map holds under a name, after one event. -/
theorem dispatch_keys_get (H : Host) (st : World) (e : Event) (name : String) :
    (dispatch H st e).keys.get? name =
      if e.names name = true then (st.keys.get? name).map (fun _ => e.isKeydown)
      else st.keys.get? name := by
  cases e with
  | keydown key =>
    simp only [dispatch, keydown, Event.names, Event.isKeydown, decide_eq_true_eq,
      onKey_eq_set, set_get]
  | keyup key =>
    simp only [dispatch, keyup, Event.names, Event.isKeydown, decide_eq_true_eq,
      onKey_eq_set, set_get]
  | idleLoaded fbx =>
    simp only [dispatch, Event.names, Bool.false_eq_true, if_false]
    split_ifs
    · cases h : fbx.animations <;> simp [onIdleLoaded, h]
    · rfl
  | idleFailed => simp [dispatch, Event.names]
  | runLoaded fbx =>
    simp only [dispatch, Event.names, Bool.false_eq_true, if_false]
    split_ifs
    · cases h : fbx.animations <;> simp [onRunLoaded, h]
    · rfl
  | runFailed => simp [dispatch, Event.names]
  | frame delta => simp [dispatch, Event.names]

theorem heldAfter_cons (start : Bool) (name : String) (e : Event) (rest : List Event) :
    heldAfter start name (e :: rest) =
      heldAfter (if e.names name = true then e.isKeydown else start) name rest := by
  unfold heldAfter lastKeyEvent
  by_cases he : e.names name = true
  · rw [List.filter_cons_of_pos he, List.getLast?_cons, if_pos he]
    cases (List.filter (Event.names name) rest).getLast? <;> rfl
  · rw [List.filter_cons_of_neg he, if_neg he]

/-- From any state, a flag after a sequence of events is what the last event
naming the key made it, and what it was when no event names the key. -/
theorem foldl_keys_get (H : Host) (evs : List Event) (st : World) (name : String) :
    (evs.foldl (dispatch H) st).keys.get? name =
      (st.keys.get? name).map (fun b => heldAfter b name evs) := by
  induction evs generalizing st with
  | nil => simp [heldAfter, lastKeyEvent]
  | cons e rest ih =>
    rw [List.foldl_cons, ih, dispatch_keys_get]
    simp only [heldAfter_cons]
    split_ifs <;> simp [Option.map_map, Function.comp_def]

/-- A run of frames from a reachable state is a run of the page. -/
theorem frames_replay (H : Host) (deltas : List ℚ) (evs : List Event) :
    frames H deltas (replay H evs) = replay H (evs ++ deltas.map Event.frame) := by
  simp only [frames, replay, List.foldl_append, List.foldl_map, dispatch]

/-! ## The properties of the specification -/

/-- C1: with `Idle.fbx` loaded, `Running.fbx` not yet loaded and `w` held, the
frame does not run to its end: it raises the TypeError of the assignment
`runAction.timeScale = 1.0` on the `undefined` run action.  The current
action is still idle afterwards. -/
theorem animate_raises_before_run_loaded :
    (replay sampleHost [.idleLoaded sampleIdleFbx, .keydown "w"]).runAction = none ∧
    (replay sampleHost [.idleLoaded sampleIdleFbx, .keydown "w"]).currentAction = some .idle ∧
    (animate sampleHost 0.016
      (replay sampleHost [.idleLoaded sampleIdleFbx, .keydown "w"])).threw = true ∧
    (animate sampleHost 0.016
      (replay sampleHost [.idleLoaded sampleIdleFbx, .keydown "w"])).world.currentAction =
        some .idle := by
  have hm : (replay sampleHost [.idleLoaded sampleIdleFbx, .keydown "w"]).model.isSome := by
    simp [replay, dispatch, keydown, onIdleLoaded, World.initial, sampleIdleFbx]
  have hr : (replay sampleHost [.idleLoaded sampleIdleFbx, .keydown "w"]).runAction = none := by
    simp [replay, dispatch, keydown, onIdleLoaded, World.initial, sampleIdleFbx]
  have hc : (replay sampleHost [.idleLoaded sampleIdleFbx, .keydown "w"]).currentAction =
      some .idle := by
    simp [replay, dispatch, keydown, onIdleLoaded, World.initial, sampleIdleFbx]
  have hk : (replay sampleHost [.idleLoaded sampleIdleFbx, .keydown "w"]).keys.w = true := by
    simp [replay, dispatch, keydown, Keys.onKey, Keys.get?, Keys.set, String.toLower,
      String.map_eq, onIdleLoaded, World.initial, sampleIdleFbx]
  obtain ⟨ht, hw⟩ := animate_raises_without_run sampleHost 0.016 _ hm hr (Or.inl hk)
  exact ⟨hr, hc, ht, by rw [hw, mixerUpdate_currentAction, hc]⟩

/-- C2: in every run of the page, from the model placed at the origin by the
idle callback, the model after a frame has `-50 <= x <= 50` and
`-50 <= z <= 50`; in a frame that runs to its end the new x and z are the
translated x and z clamped each on its own, and y is the translated y. -/
theorem position_within_world_boundary (H : Host) (evs : List Event) (delta : ℚ)
    (m : Object3D) (hm : (animate H delta (replay H evs)).world.model = some m) :
    (-50 ≤ m.position.x ∧ m.position.x ≤ 50 ∧ -50 ≤ m.position.z ∧ m.position.z ≤ 50) ∧
    ((animate H delta (replay H evs)).threw = false →
      ∃ m0, (replay H evs).model = some m0 ∧
        m.position =
          ⟨max (-50) (min 50 (move H (replay H evs).keys m0).position.x),
           (move H (replay H evs).keys m0).position.y,
           max (-50) (min 50 (move H (replay H evs).keys m0).position.z)⟩) := by
  refine ⟨(wellFormed_animate H delta _ (wellFormed_replay H evs)).bounds m hm, fun ht => ?_⟩
  rcases animate_cases H delta (replay H evs) with ⟨hn, he⟩ | ⟨-, hb, he⟩ | ⟨m0, hm0, -, he⟩
  · rw [he] at hm; simp [hn] at hm
  · rw [he, hb] at ht; exact absurd ht (by decide)
  · rw [he] at hm
    simp only [updateCamera_model, Option.some.injEq] at hm
    exact ⟨m0, hm0, by rw [← hm, clampToWorld_position]⟩

theorem position_within_world_boundary_witness :
    (animate sampleHost 0.016 (replay sampleHost (sampleLoaded ++ [.keydown "w"]))).world.model =
        some { sampleModel with position := ⟨0, 0, 0.1⟩ } ∧
      (-50 ≤ (0 : ℚ) ∧ (0 : ℚ) ≤ 50 ∧ -50 ≤ (0.1 : ℚ) ∧ (0.1 : ℚ) ≤ 50) := by
  have hm : (animate sampleHost 0.016
      (replay sampleHost (sampleLoaded ++ [.keydown "w"]))).world.model =
        some { sampleModel with position := ⟨0, 0, 0.1⟩ } := by
    simp [replay, sampleLoaded, sampleModel, dispatch, keydown, Keys.onKey, Keys.get?, Keys.set,
      String.toLower, String.map_eq, onIdleLoaded, onRunLoaded, World.initial, sampleIdleFbx,
      sampleRunFbx, animate, mixerUpdate, blend, crossFadeTo, World.ref, World.deref,
      World.modify, setRunTimeScale, move, clampToWorld, updateCamera,
      Vector3.applyQuaternion, Vector3.add, Vector3.multiplyScalar, Quaternion.identity,
      moveSpeed, worldBoundary, AnimationAction.play, AnimationAction.new]
    norm_num
  exact ⟨hm, (position_within_world_boundary sampleHost _ 0.016 _ hm).1⟩

/-- C3: in every frame of a run in which the run action exists and forward or
backward is held, the frame runs to its end and leaves the run action with
`timeScale` 0.5 when backward is held and forward is not, and 1.0 otherwise,
whichever action is current and whether or not a cross-fade starts. -/
theorem run_timeScale_while_moving (H : Host) (evs : List Event) (delta : ℚ)
    (hr : (replay H evs).runAction.isSome)
    (hk : (replay H evs).keys.w = true ∨ (replay H evs).keys.s = true) :
    (animate H delta (replay H evs)).threw = false ∧
      ∃ a, (animate H delta (replay H evs)).world.runAction = some a ∧
        a.timeScale =
          if (replay H evs).keys.s = true ∧ (replay H evs).keys.w = false then 0.5 else 1 :=
  animate_run_timeScale H delta _ ((wellFormed_replay H evs).run_model hr) hr hk

theorem run_timeScale_while_moving_witness :
    (replay sampleHost (sampleLoaded ++ [.keydown "S"])).keys = ⟨false, true, false, false⟩ ∧
      ∃ a, (animate sampleHost 0.016
          (replay sampleHost (sampleLoaded ++ [.keydown "S"]))).world.runAction = some a ∧
        a.timeScale = 0.5 := by
  have hks : (replay sampleHost (sampleLoaded ++ [.keydown "S"])).keys =
      ⟨false, true, false, false⟩ := by
    simp [replay, sampleLoaded, dispatch, keydown, Keys.onKey, Keys.get?, Keys.set,
      String.toLower, String.map_eq, onIdleLoaded, onRunLoaded, World.initial, sampleIdleFbx,
      sampleRunFbx]
  have hr : (replay sampleHost (sampleLoaded ++ [.keydown "S"])).runAction.isSome := by
    simp [replay, sampleLoaded, dispatch, keydown, onIdleLoaded, onRunLoaded, World.initial,
      sampleIdleFbx, sampleRunFbx]
  obtain ⟨-, a, ha, hts⟩ := run_timeScale_while_moving sampleHost
    (sampleLoaded ++ [.keydown "S"]) 0.016 hr (Or.inr (by rw [hks]))
  refine ⟨hks, a, ha, ?_⟩
  rw [hts, hks]; simp

/-- C4: `crossFadeTo` returns the state as it is when the target is
`undefined`, when `currentAction` is `null`, or when the target is the
current action.  Otherwise the target becomes `currentAction`; the target
object is reset (time zero), given the fade-in ramp from the mixer time
`now` to `now + duration`, and scheduled; the old current object is given
the fade-out ramp over the same interval. -/
theorem crossFadeTo_contract (newAction : Option ActionRef) (duration : ℚ) (st : World) :
    ((newAction = none ∨ st.currentAction = none ∨ newAction = st.currentAction) →
      crossFadeTo newAction duration st = st) ∧
    (∀ n c, newAction = some n → st.currentAction = some c → n ≠ c →
      (crossFadeTo newAction duration st).currentAction = some n ∧
      (crossFadeTo newAction duration st).deref n =
        (st.deref n).map (fun a => ((a.reset).fadeIn st.now duration).play) ∧
      (crossFadeTo newAction duration st).deref c =
        (st.deref c).map (AnimationAction.fadeOut st.now duration) ∧
      (∀ a, (crossFadeTo newAction duration st).deref n = some a →
        a.time = 0 ∧ a.scheduled = true ∧
          a.weightInterpolant = some ⟨st.now, 0, st.now + duration, 1⟩) ∧
      (∀ b, (crossFadeTo newAction duration st).deref c = some b →
        b.weightInterpolant = some ⟨st.now, 1, st.now + duration, 0⟩)) := by
  refine ⟨crossFadeTo_noop duration newAction st, ?_⟩
  intro n c hn hc hne
  subst hn
  rw [crossFadeTo_fade duration st n c hc hne]
  cases n <;> cases c <;> first
    | exact absurd rfl hne
    | (refine ⟨rfl, ?_, ?_, ?_, ?_⟩
       · simp only [World.deref, World.modify, Option.map_map]; rfl
       · simp only [World.deref, World.modify]
       · intro a ha
         simp only [World.deref, World.modify, Option.map_map, Option.map_eq_some'] at ha
         obtain ⟨a0, -, rfl⟩ := ha
         exact ⟨rfl, rfl, rfl⟩
       · intro b hb
         simp only [World.deref, World.modify, Option.map_eq_some'] at hb
         obtain ⟨b0, -, rfl⟩ := hb
         rfl)

theorem crossFadeTo_contract_witness :
    (replay sampleHost sampleLoaded).currentAction = some .idle ∧
      crossFadeTo (some .idle) 0.5 (replay sampleHost sampleLoaded) =
        replay sampleHost sampleLoaded ∧
      (crossFadeTo (some .run) 0.5 (replay sampleHost sampleLoaded)).currentAction =
        some .run := by
  have hc : (replay sampleHost sampleLoaded).currentAction = some .idle := by
    simp [replay, sampleLoaded, dispatch, onIdleLoaded, onRunLoaded, World.initial,
      sampleIdleFbx, sampleRunFbx]
  exact ⟨hc,
    (crossFadeTo_contract (some .idle) 0.5 (replay sampleHost sampleLoaded)).1
      (Or.inr (Or.inr hc.symm)),
    ((crossFadeTo_contract (some .run) 0.5 (replay sampleHost sampleLoaded)).2
      .run .idle rfl hc (by decide)).1⟩

/-- C5, as stated, fails: after the idle callback has run on an asset without
clips the model is present and `currentAction` is still `null`. -/
theorem currentAction_null_after_bare_idle_load :
    ¬ ((replay sampleHost [.idleLoaded sampleBareFbx]).model.isSome = true →
        (replay sampleHost [.idleLoaded sampleBareFbx]).currentAction ≠ none) := by
  intro h
  exact h (by simp [replay, dispatch, onIdleLoaded, World.initial, sampleBareFbx])
    (by simp [replay, dispatch, onIdleLoaded, World.initial, sampleBareFbx])

/-- C5, amended: the idle callback makes idle the current action when the
asset carries a clip, and in every reachable Loaded state (the model and the
idle action are present) `currentAction` is not `null`: it is the idle or
the run action, and neither `crossFadeTo` nor a frame sets it to `null`. -/
theorem currentAction_idle_or_run (H : Host) (evs : List Event)
    (hL : Loaded (replay H evs)) :
    ((replay H evs).currentAction = some .idle ∨ (replay H evs).currentAction = some .run) ∧
    (∀ newAction duration,
      (crossFadeTo newAction duration (replay H evs)).currentAction ≠ none) ∧
    (∀ delta, (animate H delta (replay H evs)).world.currentAction ≠ none) ∧
    (∀ fbx st, fbx.animations ≠ [] →
      (onIdleLoaded fbx st).currentAction = some .idle ∧
        (onIdleLoaded fbx st).idleAction.isSome ∧ (onIdleLoaded fbx st).model.isSome) := by
  have hcur := (wellFormed_replay H evs).idle_current hL.2
  have hne : (replay H evs).currentAction ≠ none := by
    rcases hcur with h | h <;> rw [h] <;> simp
  refine ⟨hcur, fun newAction duration => ?_, fun delta => ?_, fun fbx st hf => ?_⟩
  · rcases crossFadeTo_currentAction duration newAction (replay H evs) with h | ⟨-, hn, h⟩
    · rw [h]; exact hne
    · rw [h]; exact hn
  · have hi : (animate H delta (replay H evs)).world.idleAction.isSome := by
      rw [animate_idleAction_isSome]; exact hL.2
    rcases (wellFormed_animate H delta _ (wellFormed_replay H evs)).idle_current hi with h | h <;>
      rw [h] <;> simp
  · cases ha : fbx.animations with
    | nil => exact absurd ha hf
    | cons clip rest => simp [onIdleLoaded, ha]

theorem currentAction_idle_or_run_witness :
    Loaded (replay sampleHost (sampleLoaded ++ [.keydown "w", .frame 0.016])) ∧
      ((replay sampleHost (sampleLoaded ++ [.keydown "w", .frame 0.016])).currentAction =
          some .idle ∨
        (replay sampleHost (sampleLoaded ++ [.keydown "w", .frame 0.016])).currentAction =
          some .run) := by
  have hL : Loaded (replay sampleHost (sampleLoaded ++ [.keydown "w", .frame 0.016])) := by
    simp [Loaded, replay, sampleLoaded, dispatch, keydown, Keys.onKey, Keys.get?, Keys.set,
      String.toLower, String.map_eq, onIdleLoaded, onRunLoaded, World.initial, sampleIdleFbx,
      sampleRunFbx, animate, mixerUpdate, blend, crossFadeTo, World.ref, World.deref,
      World.modify, setRunTimeScale, updateCamera]
  exact ⟨hL, (currentAction_idle_or_run sampleHost _ hL).1⟩

/-- C6: after any sequence of events from the all-false key map, each of the
four flags is true exactly when the last event naming its key, without
regard to case, is a keydown, and false when no event names it; handling a
key event twice is handling it once; an event whose key is none of the four
leaves the state as it is. -/
theorem keys_reflect_last_event (H : Host) (evs : List Event) :
    ((replay H evs).keys.w = heldAfter false "w" evs ∧
      (replay H evs).keys.s = heldAfter false "s" evs ∧
      (replay H evs).keys.a = heldAfter false "a" evs ∧
      (replay H evs).keys.d = heldAfter false "d" evs) ∧
    (∀ (st : World) (key : String),
      keydown key (keydown key st) = keydown key st ∧
        keyup key (keyup key st) = keyup key st) ∧
    (∀ (st : World) (key : String),
      key.toLower ≠ "w" → key.toLower ≠ "s" → key.toLower ≠ "a" → key.toLower ≠ "d" →
        keydown key st = st ∧ keyup key st = st) := by
  refine ⟨⟨?_, ?_, ?_, ?_⟩, ?_, ?_⟩
  · have h := foldl_keys_get H evs World.initial "w"
    simpa [Keys.get?, replay, World.initial] using h
  · have h := foldl_keys_get H evs World.initial "s"
    simpa [Keys.get?, replay, World.initial] using h
  · have h := foldl_keys_get H evs World.initial "a"
    simpa [Keys.get?, replay, World.initial] using h
  · have h := foldl_keys_get H evs World.initial "d"
    simpa [Keys.get?, replay, World.initial] using h
  · intro st key
    simp only [keydown, keyup, onKey_idem, and_self]
  · intro st key h1 h2 h3 h4
    simp only [keydown, keyup, onKey_unknown _ key _ ⟨h1, h2, h3, h4⟩, and_self]

theorem keys_reflect_last_event_witness :
    (replay sampleHost [.keydown "W", .keyup "w", .keydown "A", .keydown "x"]).keys.w = false ∧
      (replay sampleHost [.keydown "W", .keyup "w", .keydown "A", .keydown "x"]).keys.a = true := by
  obtain ⟨⟨hw, -, ha, -⟩, -, -⟩ := keys_reflect_last_event sampleHost
    [.keydown "W", .keyup "w", .keydown "A", .keydown "x"]
  rw [hw, ha]
  simp [heldAfter, lastKeyEvent, List.filter, Event.names, Event.isKeydown, String.toLower,
    String.map_eq]

/-- C7: from a Loaded state in which the run action is current, one frame with
neither forward nor backward held runs to its end and makes idle the current
action, by a cross-fade of 0.5 that starts at the mixer time of that frame;
the elapsed time and the turn keys are arbitrary. -/
theorem idle_current_after_release (H : Host) (delta : ℚ) (st : World)
    (hL : Loaded st) (hc : st.currentAction = some .run)
    (hw : st.keys.w = false) (hs : st.keys.s = false) :
    (animate H delta st).threw = false ∧
      (animate H delta st).world.currentAction = some .idle ∧
      ∃ a, (animate H delta st).world.idleAction = some a ∧ a.time = 0 ∧
        a.weightInterpolant =
          some ⟨(mixerUpdate H delta st).now, 0, (mixerUpdate H delta st).now + 0.5, 1⟩ := by
  obtain ⟨ht, hcur, hidle, -⟩ := animate_selects_idle H delta st hL.1 hL.2 hc hw hs
  have hsome : (mixerUpdate H delta st).idleAction.isSome = true := by simp [hL.2]
  obtain ⟨a0, ha0⟩ := Option.isSome_iff_exists.mp hsome
  rw [ha0] at hidle
  exact ⟨ht, hcur, _, hidle, rfl, rfl⟩

theorem idle_current_after_release_witness :
    (replay sampleHost
        (sampleLoaded ++ [.keydown "w", .frame 0.016, .keyup "w"])).currentAction = some .run ∧
      (animate sampleHost 0.016 (replay sampleHost
        (sampleLoaded ++ [.keydown "w", .frame 0.016, .keyup "w"]))).world.currentAction =
          some .idle := by
  have hst : replay sampleHost (sampleLoaded ++ [.keydown "w", .frame 0.016, .keyup "w"]) =
      keyup "w" (animate sampleHost 0.016
        (replay sampleHost (sampleLoaded ++ [.keydown "w"]))).world := by
    simp [replay, dispatch]
  have hpre : (replay sampleHost (sampleLoaded ++ [.keydown "w"])).model.isSome ∧
      (replay sampleHost (sampleLoaded ++ [.keydown "w"])).idleAction.isSome ∧
      (replay sampleHost (sampleLoaded ++ [.keydown "w"])).runAction.isSome ∧
      (replay sampleHost (sampleLoaded ++ [.keydown "w"])).currentAction = some .idle ∧
      (replay sampleHost (sampleLoaded ++ [.keydown "w"])).keys = ⟨true, false, false, false⟩ := by
    simp [replay, sampleLoaded, dispatch, keydown, Keys.onKey, Keys.get?, Keys.set,
      String.toLower, String.map_eq, onIdleLoaded, onRunLoaded, World.initial, sampleIdleFbx,
      sampleRunFbx]
  obtain ⟨hm, hi, hr, hcur, hks⟩ := hpre
  have hrun := animate_selects_run sampleHost 0.016 _ hm hr (by rw [hcur]; simp)
    (Or.inl (by rw [hks]))
  have hL : Loaded (replay sampleHost
      (sampleLoaded ++ [.keydown "w", .frame 0.016, .keyup "w"])) := by
    rw [hst]; exact ⟨by simpa [keyup] using hm, by simpa [keyup] using hi⟩
  have hc : (replay sampleHost
      (sampleLoaded ++ [.keydown "w", .frame 0.016, .keyup "w"])).currentAction = some .run := by
    rw [hst]; simpa [keyup] using hrun
  have hw : (replay sampleHost
      (sampleLoaded ++ [.keydown "w", .frame 0.016, .keyup "w"])).keys.w = false := by
    rw [hst]
    simp [keyup, hks, Keys.onKey, Keys.get?, Keys.set, String.toLower, String.map_eq]
  have hs : (replay sampleHost
      (sampleLoaded ++ [.keydown "w", .frame 0.016, .keyup "w"])).keys.s = false := by
    rw [hst]
    simp [keyup, hks, Keys.onKey, Keys.get?, Keys.set, String.toLower, String.map_eq]
  exact ⟨hc, (idle_current_after_release sampleHost 0.016 _ hL hc hw hs).2.1⟩

/-- C10: `updateCamera` returns the state as it is when there is no model.
With a model at position `p` and orientation `q`, the camera position `c`
becomes `c + 0.1 * (d - c)` with `d = p + rotate(q, (0, 2, -4))`, the look-at
target is `p + (0, 1, 0)`, and nothing else changes.  In a frame that runs
to its end both are taken from the model as that frame leaves it. -/
theorem updateCamera_contract (H : Host) (delta : ℚ) (st : World) :
    (st.model = none → updateCamera st = st) ∧
    (∀ m, st.model = some m →
      updateCamera st =
        { st with camera :=
          ⟨⟨st.camera.position.x + 0.1 *
              ((m.position.add ((Vector3.mk 0 2 (-4)).applyQuaternion m.quaternion)).x -
                st.camera.position.x),
            st.camera.position.y + 0.1 *
              ((m.position.add ((Vector3.mk 0 2 (-4)).applyQuaternion m.quaternion)).y -
                st.camera.position.y),
            st.camera.position.z + 0.1 *
              ((m.position.add ((Vector3.mk 0 2 (-4)).applyQuaternion m.quaternion)).z -
                st.camera.position.z)⟩,
           some ⟨m.position.x, m.position.y + 1, m.position.z⟩⟩ }) ∧
    (∀ m1, (animate H delta st).threw = false → (animate H delta st).world.model = some m1 →
      (animate H delta st).world.camera =
        ⟨st.camera.position.lerp
            (m1.position.add ((Vector3.mk 0 2 (-4)).applyQuaternion m1.quaternion)) 0.1,
          some ⟨m1.position.x, m1.position.y + 1, m1.position.z⟩⟩) := by
  refine ⟨fun h => by simp [updateCamera, h], fun m h => ?_, fun m1 ht hm1 => ?_⟩
  · simp only [updateCamera, h, Vector3.lerp]
    congr 3 <;> ring
  · rcases animate_cases H delta st with ⟨hn, he⟩ | ⟨-, hb, he⟩ | ⟨m0, -, -, he⟩
    · rw [he] at hm1; simp [hn] at hm1
    · rw [he, hb] at ht; exact absurd ht (by decide)
    · rw [he] at hm1 ⊢
      simp only [updateCamera_model, Option.some.injEq] at hm1
      simp [updateCamera, hm1]

theorem updateCamera_contract_witness :
    (replay sampleHost sampleLoaded).model = some sampleModel ∧
      (updateCamera (replay sampleHost sampleLoaded)).camera =
        ⟨⟨0, 2, 4.1⟩, some ⟨0, 1, 0⟩⟩ := by
  have hpre : (replay sampleHost sampleLoaded).model = some sampleModel ∧
      (replay sampleHost sampleLoaded).camera = ⟨⟨0, 2, 5⟩, none⟩ := by
    simp [replay, sampleLoaded, sampleModel, dispatch, onIdleLoaded, onRunLoaded, World.initial,
      sampleIdleFbx, sampleRunFbx]
  obtain ⟨hm, hcam⟩ := hpre
  refine ⟨hm, ?_⟩
  rw [(updateCamera_contract sampleHost 0 (replay sampleHost sampleLoaded)).2.1 sampleModel hm,
    hcam]
  norm_num [sampleModel, Vector3.add, Vector3.applyQuaternion, Quaternion.identity]

end Runner
